import Mathlib

/-!
Verification of the candlestick-chart controller
(src/app/tracker/components/chart/useCandlestickChart.ts).

The development shallowly embeds the data model of the hook and its two effect
bodies as pure Lean functions:

* the UTC calendar-day key that the source obtains from
  `new Date(c.time * 1000).toISOString()`, keeping the part before the T, is embedded as the
  proleptic-Gregorian UTC date triple (year, month, day) of the UTC day
  number `time / 86400`; two timestamps produce the same `YYYY-MM-DD`
  string exactly when they produce the same date triple;
* the data-reconciliation effect (lines 124-161) becomes a state-transition
  function that also returns the list of calls issued to the rendering
  engine, so that "no call reaches the engine" and "exactly one reset" are
  statable;
* the crosshair subscription callback (lines 97-105) becomes a transition
  on the crosshair part of the state;
* the tick-mark formatter (lines 59-77) becomes a pure string function;
  the host timezone used by `Date#getHours`/`getMinutes`/`getDate` is
  modelled as a fixed offset (the spec fixes the timezone configuration as
  constant for reproducibility).

Integer division `/` on `Int` in Lean rounds toward negative infinity for
positive divisors, which matches ECMAScript `Math.floor` day/hour/minute
arithmetic.
-/

set_option maxHeartbeats 4000000

namespace Screener

/-! ## UTC calendar conversion

`civilFromDays` converts a day number (days since 1970-01-01, possibly
negative) to the proleptic Gregorian date triple `(year, month, day)`,
following the standard era-based algorithm; this is extensionally the date
that `Date#toISOString` prints.  `daysFromCivil` is its inverse, used only
to prove injectivity. -/

/-- Year-of-era from day-of-era, for day-of-era in `[0, 146096]`. -/
def yoeOf (doe : Int) : Int :=
  (doe - doe / 1460 + doe / 36524 - doe / 146096) / 365

/-- Month index (March-based, in `[0, 11]`) from day-of-year. -/
def mpOf (doy : Int) : Int :=
  (5 * doy + 2) / 153

/-- Date triple within one 400-year era: `era` is the era index and `doe`
the day-of-era in `[0, 146096]`. -/
def civilOfEra (era doe : Int) : Int × Int × Int :=
  let yoe := yoeOf doe
  let doy := doe - (365 * yoe + yoe / 4 - yoe / 100)
  let mp := mpOf doy
  let d := doy - (153 * mp + 2) / 5 + 1
  let m := if mp < 10 then mp + 3 else mp - 9
  let y := yoe + era * 400
  (if m ≤ 2 then y + 1 else y, m, d)

/-- Proleptic Gregorian UTC date triple `(year, month, day)` of a day
number (days since the epoch). -/
def civilFromDays (z0 : Int) : Int × Int × Int :=
  let z := z0 + 719468
  let era := z / 146097
  civilOfEra era (z - era * 146097)

/-- Inverse conversion: day number of a date triple. -/
def daysFromCivil : Int × Int × Int → Int
  | (y0, m, d) =>
    let y := if m ≤ 2 then y0 - 1 else y0
    let era := y / 400
    let yoe := y - era * 400
    let doy := (153 * (m + (if m > 2 then -3 else 9)) + 2) / 5 + d - 1
    let doe := yoe * 365 + yoe / 4 - yoe / 100 + doy
    era * 146097 + doe - 719468

/-! ## Data model

`Candle` mirrors the `Candle` interface of the source (time in integer
seconds since the epoch, per the data model of the spec; OHLC values are
arbitrary JavaScript numbers, including non-finite ones, which the hook
never inspects).  `CandlestickData` mirrors the shape handed to
`series.setData`. -/

/-- A JavaScript number as far as the hook can observe it: the hook does no
arithmetic on OHLC values, so finite values, NaN and the infinities are
just carried along. -/
inductive JsNum where
  | fin (q : ℚ)
  | nan
  | posInf
  | negInf
deriving DecidableEq

/-- One OHLC bar, as consumed by the hook. -/
structure Candle where
  time : Int
  open_ : JsNum
  high : JsNum
  low : JsNum
  close : JsNum
deriving DecidableEq

/-- The element shape pushed to the rendering engine by `setData`. -/
structure CandlestickData where
  time : Int
  open_ : JsNum
  high : JsNum
  low : JsNum
  close : JsNum
deriving DecidableEq

/-- UTC day number of a timestamp in seconds: `toISOString` prints the UTC
calendar date of `new Date(t * 1000)`, i.e. of day `⌊t / 86400⌋`. -/
def dayNumber (t : Int) : Int := t / 86400

/-- The UTC calendar-day key of a timestamp.  The source computes
`new Date(c.time * 1000).toISOString()` truncated at the T, the `YYYY-MM-DD`
string; two timestamps yield the same string exactly when they yield the
same UTC date triple, which is what we embed. -/
def utcDayKey (t : Int) : Int × Int × Int := civilFromDays (dayNumber t)

/-- The day-boundary scan of the reconciliation effect (source lines
133-142): walk the candles in order, keeping the day key of the previous candle
in `last` (`lastDate` in the source, `none` before the first candle), and
record the time of a candle whenever its key differs from `last`. -/
def detectNewDays (last : Option (Int × Int × Int)) :
    List Candle → Finset Int
  | [] => ∅
  | c :: cs =>
    let k := utcDayKey c.time
    if some k ≠ last then insert c.time (detectNewDays (some k) cs)
    else detectNewDays last cs

/-- Contents of `newDayTimestamps` after one reconciliation pass over
`candles` (the set is cleared first, so only this scan contributes). -/
def dayBoundaries (candles : List Candle) : Finset Int :=
  detectNewDays none candles

/-! ## Time formatting

The tick-mark formatter (source lines 59-77).  `Date#getHours`,
second one, `Date#getDate` and `toLocaleString` read the host
local time; per the spec the timezone configuration is fixed, so it is
embedded as a constant offset `tzOff` in seconds added to the UTC
timestamp. -/

/-- Abbreviated en-US month name, as produced by `toLocaleString` with the
short month option, for month number 1-12. -/
def monthShort (m : Int) : String :=
  if m = 1 then "Jan"
  else if m = 2 then "Feb"
  else if m = 3 then "Mar"
  else if m = 4 then "Apr"
  else if m = 5 then "May"
  else if m = 6 then "Jun"
  else if m = 7 then "Jul"
  else if m = 8 then "Aug"
  else if m = 9 then "Sep"
  else if m = 10 then "Oct"
  else if m = 11 then "Nov"
  else if m = 12 then "Dec"
  else ""

/-- JavaScript `String.prototype.padStart`. -/
def padStart (width : Nat) (fill : Char) (s : String) : String :=
  String.mk (List.replicate (width - s.length) fill) ++ s

/-- Embeds `Date#getHours`: hour-of-day 0-23 in the fixed local timezone. -/
def localHours (tzOff t : Int) : Int := (t + tzOff) / 3600 % 24

/-- Embeds `Date#getMinutes`: minute-of-hour 0-59 in the local timezone. -/
def localMinutes (tzOff t : Int) : Int := (t + tzOff) / 60 % 60

/-- Local calendar date triple, for `getDate` and the month name. -/
def localDate (tzOff t : Int) : Int × Int × Int :=
  civilFromDays ((t + tzOff) / 86400)

/-- The `tickMarkFormatter` callback (source lines 59-77): month/day label
on a day-boundary timestamp, a 12-hour clock label otherwise.
`newDayTimestamps` is the boundary set current at the time of the call. -/
def tickMarkFormatter (newDayTimestamps : Finset Int) (tzOff t : Int) :
    String :=
  let hours := localHours tzOff t
  let minutes := localMinutes tzOff t
  if t ∈ newDayTimestamps then
    monthShort (localDate tzOff t).2.1 ++ " " ++
      toString (localDate tzOff t).2.2
  else
    let ampm := if 12 ≤ hours then "PM" else "AM"
    let displayHour := if hours % 12 = 0 then 12 else hours % 12
    toString displayHour ++ ":" ++ padStart 2 '0' (toString minutes) ++
      " " ++ ampm

/-- Modelled from the spec: `formatCrosshairTime` is imported from
`./formatters`, a file that is not part of the source tree.  The spec
(§4.3) fixes only that it is a single deterministic formatting routine
from a timestamp to a display string, so it is embedded as an arbitrary
fixed deterministic function. -/
def formatCrosshairTime (t : Int) : String := toString t

/-! ## Hook state and the effect bodies -/

/-- Pixel coordinates of a pointer event. -/
structure ChartPoint where
  x : Int
  y : Int
deriving DecidableEq

/-- The `time` field of a crosshair notification: JavaScript `typeof` can
see a number or some non-number value (business day object, string). -/
inductive TimeValue where
  | num (t : Int)
  | nonNumeric
deriving DecidableEq

/-- The fields of `MouseEventParams` the handler reads; either may be
absent. -/
structure MouseEventParams where
  point : Option ChartPoint
  time : Option TimeValue

/-- One call issued to the rendering engine during an effect. -/
inductive EngineCall where
  | setData (data : List CandlestickData)
  | fitContent
  | priceScaleApplyAutoScale (id : String) (autoScale : Bool)
deriving DecidableEq

/-- The mutable state the hook holds across renders: liveness of the two
engine refs, `prevSymbolRef`, `newDayTimestamps`, and the three pieces of
React state. -/
structure HookState where
  chartLive : Bool
  seriesLive : Bool
  prevSymbol : Option String
  newDayTimestamps : Finset Int
  hasData : Bool
  crosshairTime : Option String
  crosshairX : Option Int
deriving DecidableEq

/-- The state right after the mount effect ran and before any
reconciliation pass: both refs live (lines 107-108), `prevSymbolRef`
still at its initializer `null` (line 29), boundary set empty (line 30),
`hasData`/crosshair state at their initializers (lines 32-34). -/
def initialMountedState : HookState where
  chartLive := true
  seriesLive := true
  prevSymbol := none
  newDayTimestamps := ∅
  hasData := false
  crosshairTime := none
  crosshairX := none

/-- The field-for-field mapping of a candle into the shape accepted by
`series.setData` (source lines 144-150). -/
def toCandlestickData (c : Candle) : CandlestickData where
  time := c.time
  open_ := c.open_
  high := c.high
  low := c.low
  close := c.close

/-- The data-reconciliation effect body (source lines 124-161): early
return with `hasData := false` when a ref is dead or the sequence is
empty; otherwise recompute the boundary set, push the whole formatted
sequence via one `setData`, set `hasData := true`, fit-and-autoscale when
the symbol changed, and record the symbol.  The second component lists the
calls issued to the rendering engine, in order. -/
def reconcile (st : HookState) (candles : List Candle) (symbol : String) :
    HookState × List EngineCall :=
  if st.seriesLive = false ∨ st.chartLive = false ∨ candles = [] then
    ({ st with hasData := false }, [])
  else
    let nds := dayBoundaries candles
    let formatted := candles.map toCandlestickData
    let resetCalls :=
      if st.prevSymbol ≠ some symbol then
        [EngineCall.fitContent, EngineCall.priceScaleApplyAutoScale "right" true]
      else []
    ({ st with
        newDayTimestamps := nds
        hasData := true
        prevSymbol := some symbol },
      EngineCall.setData formatted :: resetCalls)

/-- The `resetView` command (source lines 163-166): optional chaining, so
no call is issued when the chart ref is null. -/
def resetViewCalls (st : HookState) : List EngineCall :=
  if st.chartLive then
    [EngineCall.fitContent, EngineCall.priceScaleApplyAutoScale "right" true]
  else []

/-- The `subscribeCrosshairMove` callback (source lines 97-105). -/
def onCrosshairMove (st : HookState) (param : MouseEventParams) :
    HookState :=
  match param.point, param.time with
  | some pt, some (TimeValue.num t) =>
    { st with
        crosshairTime := some (formatCrosshairTime t)
        crosshairX := some pt.x }
  | _, _ => { st with crosshairTime := none, crosshairX := none }

/-- Number of `fitContent` calls in a call list. -/
def countFit (calls : List EngineCall) : Nat :=
  calls.countP fun c =>
    match c with
    | EngineCall.fitContent => true
    | _ => false

/-- Number of autoscale re-enablings of the right price scale. -/
def countAutoScale (calls : List EngineCall) : Nat :=
  calls.countP fun c =>
    match c with
    | EngineCall.priceScaleApplyAutoScale "right" true => true
    | _ => false

/-- Number of `setData` pushes. -/
def countSetData (calls : List EngineCall) : Nat :=
  calls.countP fun c =>
    match c with
    | EngineCall.setData _ => true
    | _ => false

/-! ## Rendering-engine viewport model

Modelled from the spec: the rendering engine itself is an external
collaborator (spec §6); §4.6 specifies `reset` as "fits the visible time
range to encompass all currently loaded data, and re-enables automatic
price-axis scaling".  The viewport model below realizes exactly that
interface: `fitContent` makes the visible range a function of the loaded
data alone, and autoscale is a flag. -/

structure EngineViewport where
  visibleRange : Option (Int × Int)
  autoScale : Bool
deriving DecidableEq

structure EngineModel where
  data : List CandlestickData
  viewport : EngineViewport
deriving DecidableEq

/-- Full time extent of the loaded data. -/
def fullTimeExtent (data : List CandlestickData) : Option (Int × Int) :=
  match data.head?, data.getLast? with
  | some a, some b => some (a.time, b.time)
  | _, _ => none

def applyEngineCall (e : EngineModel) : EngineCall → EngineModel
  | EngineCall.setData d => { e with data := d }
  | EngineCall.fitContent =>
    { e with viewport := { e.viewport with visibleRange := fullTimeExtent e.data } }
  | EngineCall.priceScaleApplyAutoScale _ v =>
    { e with viewport := { e.viewport with autoScale := v } }

def applyEngineCalls (e : EngineModel) (calls : List EngineCall) :
    EngineModel :=
  calls.foldl applyEngineCall e

/-! ## Label-shape predicates (for C4) -/

/-- The twelve strings the short en-US month formatting can produce. -/
def monthNames : List String :=
  ["Jan", "Feb", "Mar", "Apr", "May", "Jun",
   "Jul", "Aug", "Sep", "Oct", "Nov", "Dec"]

/-- A month/day axis label: an abbreviated month name, a space, and a
day-of-month between 1 and 31. -/
def IsMonthDayLabel (s : String) : Prop :=
  ∃ mo d, mo ∈ monthNames ∧ 1 ≤ d ∧ d ≤ 31 ∧
    s = mo ++ " " ++ toString (d : Int)

/-- A 12-hour time-of-day axis label `H:MM AM/PM` with zero-padded
minutes and hour between 1 and 12. -/
def IsTimeOfDayLabel (s : String) : Prop :=
  ∃ h mi ap, 1 ≤ h ∧ h ≤ 12 ∧ 0 ≤ mi ∧ mi < 60 ∧
    (ap = "AM" ∨ ap = "PM") ∧
    s = toString (h : Int) ++ ":" ++ padStart 2 '0' (toString (mi : Int)) ++
      " " ++ ap

/-! ## Concrete fixtures (spec §8, scenario A) -/

def candleA : Candle where
  time := 1700000000
  open_ := JsNum.fin 1
  high := JsNum.fin 2
  low := JsNum.fin 0
  close := JsNum.fin 1

def candleB : Candle where
  time := 1700003600
  open_ := JsNum.fin 1
  high := JsNum.fin 3
  low := JsNum.fin 1
  close := JsNum.fin 2

def candleC : Candle where
  time := 1700086400
  open_ := JsNum.nan
  high := JsNum.posInf
  low := JsNum.negInf
  close := JsNum.fin 2

def emptyEngine : EngineModel where
  data := []
  viewport := { visibleRange := none, autoScale := false }

theorem yoeOf_spec (doe : Int) (h0 : 0 ≤ doe) (h1 : doe ≤ 146096) :
    0 ≤ yoeOf doe ∧ yoeOf doe ≤ 399 ∧
      365 * yoeOf doe + yoeOf doe / 4 - yoeOf doe / 100 ≤ doe ∧
      doe - (365 * yoeOf doe + yoeOf doe / 4 - yoeOf doe / 100) ≤ 365 := by
  unfold yoeOf
  set k := (doe - doe / 1460 + doe / 36524 - doe / 146096) / 365 with hk
  have hb0 : 0 ≤ k := by omega
  have hb1 : k ≤ 399 := by omega
  refine ⟨hb0, hb1, ?_⟩
  interval_cases k <;> omega

theorem mpOf_spec (doy : Int) (h0 : 0 ≤ doy) (h1 : doy ≤ 365) :
    0 ≤ mpOf doy ∧ mpOf doy ≤ 11 ∧
      1 ≤ doy - (153 * mpOf doy + 2) / 5 + 1 ∧
      doy - (153 * mpOf doy + 2) / 5 + 1 ≤ 31 := by
  unfold mpOf
  omega

/-- Equation unfolding `civilOfEra` with every internal let expanded. -/
theorem civilOfEra_unfold (era doe : Int) :
    civilOfEra era doe =
      (if (if mpOf (doe - (365 * yoeOf doe + yoeOf doe / 4 - yoeOf doe / 100)) < 10 then
             mpOf (doe - (365 * yoeOf doe + yoeOf doe / 4 - yoeOf doe / 100)) + 3
           else
             mpOf (doe - (365 * yoeOf doe + yoeOf doe / 4 - yoeOf doe / 100)) - 9) ≤ 2 then
         yoeOf doe + era * 400 + 1
       else yoeOf doe + era * 400,
       if mpOf (doe - (365 * yoeOf doe + yoeOf doe / 4 - yoeOf doe / 100)) < 10 then
         mpOf (doe - (365 * yoeOf doe + yoeOf doe / 4 - yoeOf doe / 100)) + 3
       else
         mpOf (doe - (365 * yoeOf doe + yoeOf doe / 4 - yoeOf doe / 100)) - 9,
       doe - (365 * yoeOf doe + yoeOf doe / 4 - yoeOf doe / 100) -
           (153 * mpOf (doe - (365 * yoeOf doe + yoeOf doe / 4 - yoeOf doe / 100)) + 2) / 5
         + 1) :=
  rfl

/-- Equation unfolding `civilFromDays` into its era decomposition. -/
theorem civilFromDays_unfold (z : Int) :
    civilFromDays z =
      civilOfEra ((z + 719468) / 146097)
        (z + 719468 - ((z + 719468) / 146097) * 146097) :=
  rfl

/-- Reconstruction of the day-of-era from an assembled date triple, stated
over opaque integer variables so that linear arithmetic can discharge it. -/
theorem daysFromCivil_assemble (era doe yoe doy mp d : Int)
    (hy0 : 0 ≤ yoe) (hy1 : yoe ≤ 399)
    (hdoy : doy = doe - (365 * yoe + yoe / 4 - yoe / 100))
    (hm0 : 0 ≤ mp) (hm1 : mp ≤ 11)
    (hd : d = doy - (153 * mp + 2) / 5 + 1) :
    daysFromCivil
        (if (if mp < 10 then mp + 3 else mp - 9) ≤ 2 then yoe + era * 400 + 1
         else yoe + era * 400,
         if mp < 10 then mp + 3 else mp - 9, d) =
      era * 146097 + doe - 719468 := by
  simp only [daysFromCivil]
  split_ifs <;> omega

theorem daysFromCivil_civilOfEra (era doe : Int)
    (h0 : 0 ≤ doe) (h1 : doe ≤ 146096) :
    daysFromCivil (civilOfEra era doe) = era * 146097 + doe - 719468 := by
  obtain ⟨hy0, hy1, hy2, hy3⟩ := yoeOf_spec doe h0 h1
  obtain ⟨hm0, hm1, hd0, hd1⟩ :=
    mpOf_spec (doe - (365 * yoeOf doe + yoeOf doe / 4 - yoeOf doe / 100))
      (by omega) (by omega)
  rw [civilOfEra_unfold]
  exact daysFromCivil_assemble era doe (yoeOf doe) _ (mpOf _) _
    hy0 hy1 rfl hm0 hm1 rfl

/-- Round trip: `daysFromCivil` undoes `civilFromDays`. -/
theorem daysFromCivil_civilFromDays (z : Int) :
    daysFromCivil (civilFromDays z) = z := by
  rw [civilFromDays_unfold]
  rw [daysFromCivil_civilOfEra _ _ (by omega) (by omega)]
  omega

/-- The date-triple conversion is injective: distinct day numbers print as
distinct `YYYY-MM-DD` strings. -/
theorem civilFromDays_injective : Function.Injective civilFromDays :=
  Function.LeftInverse.injective daysFromCivil_civilFromDays

/-- Month and day-of-month ranges of an assembled date triple, over opaque
integer variables. -/
theorem civilOfEra_ranges_assemble (y mp d : Int)
    (hm0 : 0 ≤ mp) (hm1 : mp ≤ 11) (hd0 : 1 ≤ d) (hd1 : d ≤ 31) :
    1 ≤ ((y, if mp < 10 then mp + 3 else mp - 9, d) : Int × Int × Int).2.1 ∧
      ((y, if mp < 10 then mp + 3 else mp - 9, d) : Int × Int × Int).2.1 ≤ 12 ∧
      1 ≤ ((y, if mp < 10 then mp + 3 else mp - 9, d) : Int × Int × Int).2.2 ∧
      ((y, if mp < 10 then mp + 3 else mp - 9, d) : Int × Int × Int).2.2 ≤ 31 := by
  refine ⟨?_, ?_, ?_, ?_⟩ <;> simp only <;> (try split_ifs) <;> omega

theorem civilOfEra_ranges (era doe : Int) (h0 : 0 ≤ doe) (h1 : doe ≤ 146096) :
    1 ≤ (civilOfEra era doe).2.1 ∧ (civilOfEra era doe).2.1 ≤ 12 ∧
      1 ≤ (civilOfEra era doe).2.2 ∧ (civilOfEra era doe).2.2 ≤ 31 := by
  obtain ⟨hy0, hy1, hy2, hy3⟩ := yoeOf_spec doe h0 h1
  obtain ⟨hm0, hm1, hd0, hd1⟩ :=
    mpOf_spec (doe - (365 * yoeOf doe + yoeOf doe / 4 - yoeOf doe / 100))
      (by omega) (by omega)
  rw [civilOfEra_unfold]
  exact civilOfEra_ranges_assemble _ (mpOf _) _ hm0 hm1 hd0 hd1

/-- Month and day-of-month ranges of the conversion. -/
theorem civilFromDays_ranges (z : Int) :
    1 ≤ (civilFromDays z).2.1 ∧ (civilFromDays z).2.1 ≤ 12 ∧
      1 ≤ (civilFromDays z).2.2 ∧ (civilFromDays z).2.2 ≤ 31 := by
  rw [civilFromDays_unfold]
  exact civilOfEra_ranges _ _ (by omega) (by omega)

theorem utcDayKey_eq_iff (t u : Int) :
    utcDayKey t = utcDayKey u ↔ dayNumber t = dayNumber u := by
  constructor
  · exact fun h => civilFromDays_injective h
  · intro h
    unfold utcDayKey
    rw [h]

theorem dayNumber_mono {t u : Int} (h : t ≤ u) : dayNumber t ≤ dayNumber u := by
  unfold dayNumber
  omega

/-- Membership in the scan started after a candle `c`: exactly the times of
later candles whose day key differs from that of the immediate predecessor. -/
theorem mem_detectNewDays_some (cs : List Candle) :
    ∀ (c : Candle) (t : Int),
      (t ∈ detectNewDays (some (utcDayKey c.time)) cs ↔
        ∃ p ∈ (c :: cs).zip cs,
          p.2.time = t ∧ utcDayKey p.2.time ≠ utcDayKey p.1.time) := by
  induction cs with
  | nil => simp [detectNewDays]
  | cons b cs ih =>
    intro c t
    by_cases hk : utcDayKey b.time = utcDayKey c.time
    · rw [show detectNewDays (some (utcDayKey c.time)) (b :: cs) =
          detectNewDays (some (utcDayKey b.time)) cs by
        simp [detectNewDays, hk]]
      rw [ih b t]
      simp only [List.zip_cons_cons, List.mem_cons]
      constructor
      · rintro ⟨p, hp, hpt, hpk⟩
        exact ⟨p, Or.inr hp, hpt, hpk⟩
      · rintro ⟨p, hp | hp, hpt, hpk⟩
        · rw [hp] at hpk hpt
          exact absurd hk hpk
        · exact ⟨p, hp, hpt, hpk⟩
    · rw [show detectNewDays (some (utcDayKey c.time)) (b :: cs) =
          insert b.time (detectNewDays (some (utcDayKey b.time)) cs) by
        simp [detectNewDays, hk]]
      rw [Finset.mem_insert, ih b t]
      simp only [List.zip_cons_cons, List.mem_cons]
      constructor
      · rintro (rfl | ⟨p, hp, hpt, hpk⟩)
        · exact ⟨(c, b), Or.inl rfl, rfl, hk⟩
        · exact ⟨p, Or.inr hp, hpt, hpk⟩
      · rintro ⟨p, hp | hp, hpt, hpk⟩
        · rw [hp] at hpt
          exact Or.inl hpt.symm
        · exact Or.inr ⟨p, hp, hpt, hpk⟩

/-- Membership in the day-boundary set of a non-empty sequence: the first
time of the first candle, plus the times of candles whose day key differs
from that of the immediately preceding candle. -/
theorem mem_dayBoundaries (c : Candle) (cs : List Candle) (t : Int) :
    t ∈ dayBoundaries (c :: cs) ↔
      t = c.time ∨
        ∃ p ∈ (c :: cs).zip cs,
          p.2.time = t ∧ utcDayKey p.2.time ≠ utcDayKey p.1.time := by
  rw [show dayBoundaries (c :: cs) =
      insert c.time (detectNewDays (some (utcDayKey c.time)) cs) by
    simp [dayBoundaries, detectNewDays]]
  rw [Finset.mem_insert, mem_detectNewDays_some cs c t]

theorem card_insert_eq_card_erase_add_one (a : Int) (s : Finset Int) :
    (insert a s).card = (s.erase a).card + 1 := by
  by_cases h : a ∈ s
  · rw [Finset.insert_eq_self.mpr h, ← Finset.card_erase_add_one h]
  · rw [Finset.card_insert_of_not_mem h, Finset.erase_eq_of_not_mem h]

/-- Card bound for the scan started after candle `c`, against the distinct
UTC day numbers of the remaining candles. -/
theorem card_detectNewDays_le (cs : List Candle) :
    ∀ c : Candle,
      List.Pairwise (fun a b => a.time < b.time) (c :: cs) →
      (detectNewDays (some (utcDayKey c.time)) cs).card ≤
        (((cs.map fun x => dayNumber x.time).toFinset).erase
          (dayNumber c.time)).card := by
  induction cs with
  | nil =>
    intro c _
    simp [detectNewDays]
  | cons b cs ih =>
    intro c hp
    have hcb : c.time < b.time :=
      (List.pairwise_cons.mp hp).1 b (List.mem_cons_self b cs)
    have hp2 : List.Pairwise (fun a b => a.time < b.time) (b :: cs) :=
      (List.pairwise_cons.mp hp).2
    by_cases hk : utcDayKey b.time = utcDayKey c.time
    · have hdn : dayNumber b.time = dayNumber c.time :=
        (utcDayKey_eq_iff _ _).mp hk
      rw [show detectNewDays (some (utcDayKey c.time)) (b :: cs) =
          detectNewDays (some (utcDayKey b.time)) cs by
        simp [detectNewDays, hk]]
      refine le_trans (ih b hp2) ?_
      simp only [List.map_cons, List.toFinset_cons]
      rw [← hdn, Finset.erase_insert_eq_erase]
    · have hdn : dayNumber b.time ≠ dayNumber c.time := fun h =>
        hk ((utcDayKey_eq_iff _ _).mpr h)
      have hcbdn : dayNumber c.time < dayNumber b.time :=
        lt_of_le_of_ne (dayNumber_mono hcb.le) (Ne.symm hdn)
      rw [show detectNewDays (some (utcDayKey c.time)) (b :: cs) =
          insert b.time (detectNewDays (some (utcDayKey b.time)) cs) by
        simp [detectNewDays, hk]]
      have hnot : dayNumber c.time ∉
          insert (dayNumber b.time)
            ((cs.map fun x => dayNumber x.time).toFinset) := by
        rw [Finset.mem_insert]
        rintro (h | h)
        · exact hdn h.symm
        · rw [List.mem_toFinset, List.mem_map] at h
          obtain ⟨x, hx, hxe⟩ := h
          have hbx : b.time < x.time := (List.pairwise_cons.mp hp2).1 x hx
          have := dayNumber_mono hbx.le
          omega
      simp only [List.map_cons, List.toFinset_cons]
      rw [Finset.erase_eq_of_not_mem hnot,
        card_insert_eq_card_erase_add_one (dayNumber b.time)]
      have h1 := Finset.card_insert_le b.time
        (detectNewDays (some (utcDayKey b.time)) cs)
      have h2 := ih b hp2
      omega

theorem key_toFinset_eq_image (l : List Candle) :
    (l.map fun x => utcDayKey x.time).toFinset =
      Finset.image civilFromDays
        ((l.map fun x => dayNumber x.time).toFinset) := by
  induction l with
  | nil => simp
  | cons a l ih =>
    simp only [List.map_cons, List.toFinset_cons, ih, Finset.image_insert]
    rfl

/-- Distinct UTC day keys and distinct UTC day numbers agree in count. -/
theorem key_toFinset_card (l : List Candle) :
    ((l.map fun x => utcDayKey x.time).toFinset).card =
      ((l.map fun x => dayNumber x.time).toFinset).card := by
  rw [key_toFinset_eq_image]
  exact Finset.card_image_of_injective _ civilFromDays_injective

/-- Size of the day-boundary set of an ascending non-empty sequence:
at least one, at most the number of distinct UTC calendar days. -/
theorem dayBoundaries_card_bounds (c : Candle) (cs : List Candle)
    (hp : List.Pairwise (fun a b => a.time < b.time) (c :: cs)) :
    1 ≤ (dayBoundaries (c :: cs)).card ∧
      (dayBoundaries (c :: cs)).card ≤
        (((c :: cs).map fun x => utcDayKey x.time).toFinset).card := by
  have hmem : c.time ∈ dayBoundaries (c :: cs) :=
    (mem_dayBoundaries c cs c.time).mpr (Or.inl rfl)
  constructor
  · exact Finset.card_pos.mpr ⟨c.time, hmem⟩
  · rw [show dayBoundaries (c :: cs) =
        insert c.time (detectNewDays (some (utcDayKey c.time)) cs) by
      simp [dayBoundaries, detectNewDays]]
    have h1 := Finset.card_insert_le c.time
      (detectNewDays (some (utcDayKey c.time)) cs)
    have h2 := card_detectNewDays_le cs c hp
    rw [key_toFinset_card]
    simp only [List.map_cons, List.toFinset_cons]
    have h3 := card_insert_eq_card_erase_add_one (dayNumber c.time)
      ((cs.map fun x => dayNumber x.time).toFinset)
    omega

/-! ## Behaviour of `reconcile` on the two paths -/

/-- Early-return path of the reconciliation effect. -/
theorem reconcile_early (st : HookState) (candles : List Candle)
    (symbol : String)
    (h : st.seriesLive = false ∨ st.chartLive = false ∨ candles = []) :
    reconcile st candles symbol = ({ st with hasData := false }, []) := by
  unfold reconcile
  rw [if_pos h]

/-- Main path of the reconciliation effect. -/
theorem reconcile_run (st : HookState) (candles : List Candle)
    (symbol : String) (hs : st.seriesLive = true) (hc : st.chartLive = true)
    (hne : candles ≠ []) :
    reconcile st candles symbol =
      ({ st with
          newDayTimestamps := dayBoundaries candles
          hasData := true
          prevSymbol := some symbol },
        EngineCall.setData (candles.map toCandlestickData) ::
          (if st.prevSymbol ≠ some symbol then
            [EngineCall.fitContent,
             EngineCall.priceScaleApplyAutoScale "right" true]
          else [])) := by
  unfold reconcile
  rw [if_neg]
  simp [hs, hc, hne]

/-- Field view of the state produced by a main-path pass. -/
theorem reconcile_run_fields (st : HookState) (candles : List Candle)
    (symbol : String) (hs : st.seriesLive = true) (hc : st.chartLive = true)
    (hne : candles ≠ []) :
    (reconcile st candles symbol).1.newDayTimestamps = dayBoundaries candles ∧
      (reconcile st candles symbol).1.prevSymbol = some symbol ∧
      (reconcile st candles symbol).1.hasData = true ∧
      (reconcile st candles symbol).1.seriesLive = st.seriesLive ∧
      (reconcile st candles symbol).1.chartLive = st.chartLive := by
  rw [reconcile_run st candles symbol hs hc hne]
  exact ⟨rfl, rfl, rfl, rfl, rfl⟩

/-- Call view of a main-path pass. -/
theorem reconcile_run_calls (st : HookState) (candles : List Candle)
    (symbol : String) (hs : st.seriesLive = true) (hc : st.chartLive = true)
    (hne : candles ≠ []) :
    (reconcile st candles symbol).2 =
      EngineCall.setData (candles.map toCandlestickData) ::
        (if st.prevSymbol ≠ some symbol then
          [EngineCall.fitContent,
           EngineCall.priceScaleApplyAutoScale "right" true]
        else []) := by
  rw [reconcile_run st candles symbol hs hc hne]

theorem countFit_with_reset (d : List CandlestickData) :
    countFit [EngineCall.setData d, EngineCall.fitContent,
      EngineCall.priceScaleApplyAutoScale "right" true] = 1 := rfl

theorem countAutoScale_with_reset (d : List CandlestickData) :
    countAutoScale [EngineCall.setData d, EngineCall.fitContent,
      EngineCall.priceScaleApplyAutoScale "right" true] = 1 := rfl

theorem countFit_no_reset (d : List CandlestickData) :
    countFit [EngineCall.setData d] = 0 := rfl

theorem countAutoScale_no_reset (d : List CandlestickData) :
    countAutoScale [EngineCall.setData d] = 0 := rfl

/-! ## The claims -/

/-- C1: for every ascending-sorted non-empty candle sequence, the
day-boundary set contains the time of the first candle, contains exactly
the candle times whose UTC calendar-day key differs from that of the
immediately preceding candle (besides the first), and its size is between
1 and the number of distinct UTC calendar days, inclusive. -/
theorem dayBoundarySet_correct (c : Candle) (cs : List Candle)
    (hsorted : List.Pairwise (fun a b => a.time < b.time) (c :: cs)) :
    c.time ∈ dayBoundaries (c :: cs) ∧
      (∀ t : Int,
        t ∈ dayBoundaries (c :: cs) ↔
          t = c.time ∨
            ∃ p ∈ (c :: cs).zip cs,
              p.2.time = t ∧ utcDayKey p.2.time ≠ utcDayKey p.1.time) ∧
      1 ≤ (dayBoundaries (c :: cs)).card ∧
      (dayBoundaries (c :: cs)).card ≤
        (((c :: cs).map fun x => utcDayKey x.time).toFinset).card := by
  obtain ⟨h1, h2⟩ := dayBoundaries_card_bounds c cs hsorted
  exact ⟨(mem_dayBoundaries c cs c.time).mpr (Or.inl rfl),
    fun t => mem_dayBoundaries c cs t, h1, h2⟩

/-- Witness for C1 at the concrete scenario-A candles. -/
theorem dayBoundarySet_correct_witness :
    List.Pairwise (fun a b => a.time < b.time) [candleA, candleB, candleC] ∧
      candleA.time ∈ dayBoundaries [candleA, candleB, candleC] ∧
      (dayBoundaries [candleA, candleB, candleC]).card ≤
        (([candleA, candleB, candleC].map fun x =>
          utcDayKey x.time).toFinset).card := by
  have hp : List.Pairwise (fun a b => a.time < b.time)
      [candleA, candleB, candleC] := by
    simp [candleA, candleB, candleC]
  obtain ⟨hm, _, _, hcard⟩ := dayBoundarySet_correct candleA [candleB, candleC] hp
  exact ⟨hp, hm, hcard⟩

/-- C2: a reconciliation pass with a dead engine handle or an empty candle
sequence sets hasData to false and issues no engine call at all. -/
theorem earlyReturn_no_calls (st : HookState) (candles : List Candle)
    (symbol : String)
    (h : st.seriesLive = false ∨ st.chartLive = false ∨ candles = []) :
    (reconcile st candles symbol).1.hasData = false ∧
      (reconcile st candles symbol).2 = [] := by
  rw [reconcile_early st candles symbol h]
  exact ⟨rfl, rfl⟩

/-- Witness for C2 on the empty sequence. -/
theorem earlyReturn_no_calls_witness :
    (initialMountedState.seriesLive = false ∨
        initialMountedState.chartLive = false ∨ ([] : List Candle) = []) ∧
      (reconcile initialMountedState [] "AAPL").1.hasData = false ∧
      (reconcile initialMountedState [] "AAPL").2 = [] :=
  ⟨Or.inr (Or.inr rfl),
    earlyReturn_no_calls initialMountedState [] "AAPL" (Or.inr (Or.inr rfl))⟩

/-- C3: across two consecutive main-path passes, a changed symbol identity
triggers exactly one automatic reset (one fitContent and one autoscale
re-enable) and records the new identity; an unchanged identity triggers
zero automatic resets. -/
theorem symbolChange_reset_policy (st : HookState) (c1 c2 : List Candle)
    (s1 s2 : String) (hs : st.seriesLive = true) (hc : st.chartLive = true)
    (h1 : c1 ≠ []) (h2 : c2 ≠ []) :
    (s2 ≠ s1 →
      countFit (reconcile (reconcile st c1 s1).1 c2 s2).2 = 1 ∧
        countAutoScale (reconcile (reconcile st c1 s1).1 c2 s2).2 = 1 ∧
        (reconcile (reconcile st c1 s1).1 c2 s2).1.prevSymbol = some s2) ∧
    (s2 = s1 →
      countFit (reconcile (reconcile st c1 s1).1 c2 s2).2 = 0 ∧
        countAutoScale (reconcile (reconcile st c1 s1).1 c2 s2).2 = 0) := by
  obtain ⟨hnds, hprev, hhd, hsl, hcl⟩ := reconcile_run_fields st c1 s1 hs hc h1
  have hs2 : (reconcile st c1 s1).1.seriesLive = true := by rw [hsl, hs]
  have hc2 : (reconcile st c1 s1).1.chartLive = true := by rw [hcl, hc]
  have hcalls := reconcile_run_calls (reconcile st c1 s1).1 c2 s2 hs2 hc2 h2
  rw [hprev] at hcalls
  constructor
  · intro hne
    have hne2 : (some s1 : Option String) ≠ some s2 := by
      intro h
      exact hne (Option.some_inj.mp h).symm
    rw [if_pos hne2] at hcalls
    rw [hcalls]
    obtain ⟨_, hprev2, _, _, _⟩ :=
      reconcile_run_fields (reconcile st c1 s1).1 c2 s2 hs2 hc2 h2
    exact ⟨countFit_with_reset _, countAutoScale_with_reset _, hprev2⟩
  · intro heq
    have heq2 : ¬ ((some s1 : Option String) ≠ some s2) := by
      rw [heq]
      exact fun h => h rfl
    rw [if_neg heq2] at hcalls
    rw [hcalls]
    exact ⟨countFit_no_reset _, countAutoScale_no_reset _⟩

/-- Witness for C3 at a concrete symbol change. -/
theorem symbolChange_reset_policy_witness :
    countFit (reconcile (reconcile initialMountedState [candleA] "AAPL").1
        [candleB] "MSFT").2 = 1 ∧
      countAutoScale (reconcile (reconcile initialMountedState [candleA]
        "AAPL").1 [candleB] "MSFT").2 = 1 ∧
      (reconcile (reconcile initialMountedState [candleA] "AAPL").1
        [candleB] "MSFT").1.prevSymbol = some "MSFT" :=
  (symbolChange_reset_policy initialMountedState [candleA] [candleB]
    "AAPL" "MSFT" rfl rfl (List.cons_ne_nil _ _) (List.cons_ne_nil _ _)).1
    (by decide)

/-- C5: the crosshair state is cleared to (null, null) exactly when the
notification lacks a pixel point or a numeric time; otherwise it carries
the formatted time label and the reported pixel x offset. -/
theorem crosshair_null_iff (st : HookState) (p : MouseEventParams) :
    (((onCrosshairMove st p).crosshairTime = none ∧
        (onCrosshairMove st p).crosshairX = none) ↔
      (p.point = none ∨ ∀ t : Int, p.time ≠ some (TimeValue.num t))) ∧
    ∀ (pt : ChartPoint) (t : Int),
      p.point = some pt → p.time = some (TimeValue.num t) →
        (onCrosshairMove st p).crosshairTime =
            some (formatCrosshairTime t) ∧
          (onCrosshairMove st p).crosshairX = some pt.x := by
  obtain ⟨point, time⟩ := p
  cases point with
  | none =>
    cases time with
    | none => simp [onCrosshairMove]
    | some tv => cases tv <;> simp [onCrosshairMove]
  | some pt =>
    cases time with
    | none => simp [onCrosshairMove]
    | some tv =>
      cases tv with
      | num t =>
        constructor
        · simp [onCrosshairMove]
        · intro pt2 t2 hpt ht
          rw [Option.some_inj.mp hpt] at *
          have : t = t2 := by
            have := Option.some_inj.mp ht
            injection this
          rw [← this]
          simp [onCrosshairMove]
      | nonNumeric => simp [onCrosshairMove]

/-- Witness for C5 at a pointless notification. -/
theorem crosshair_null_iff_witness :
    (onCrosshairMove initialMountedState
        { point := none, time := none }).crosshairTime = none ∧
      (onCrosshairMove initialMountedState
        { point := none, time := none }).crosshairX = none :=
  (crosshair_null_iff initialMountedState
    { point := none, time := none }).1.mpr (Or.inl rfl)

/-- C6: a main-path pass pushes the whole mapped candle sequence in a
single setData call (wholesale replacement), the mapping copies every
field unchanged (finite or not), and hasData ends up true. -/
theorem reconcile_pushes_full_sequence (st : HookState)
    (candles : List Candle) (symbol : String)
    (hs : st.seriesLive = true) (hc : st.chartLive = true)
    (hne : candles ≠ []) :
    (∃ rest,
        (reconcile st candles symbol).2 =
          EngineCall.setData (candles.map toCandlestickData) :: rest ∧
          countSetData rest = 0) ∧
      countSetData (reconcile st candles symbol).2 = 1 ∧
      (∀ c : Candle,
        (toCandlestickData c).time = c.time ∧
          (toCandlestickData c).open_ = c.open_ ∧
          (toCandlestickData c).high = c.high ∧
          (toCandlestickData c).low = c.low ∧
          (toCandlestickData c).close = c.close) ∧
      (reconcile st candles symbol).1.hasData = true := by
  have hcalls := reconcile_run_calls st candles symbol hs hc hne
  obtain ⟨_, _, hhd, _, _⟩ := reconcile_run_fields st candles symbol hs hc hne
  refine ⟨?_, ?_, fun c => ⟨rfl, rfl, rfl, rfl, rfl⟩, hhd⟩
  · by_cases hps : st.prevSymbol ≠ some symbol
    · rw [if_pos hps] at hcalls
      exact ⟨_, hcalls, rfl⟩
    · rw [if_neg hps] at hcalls
      exact ⟨_, hcalls, rfl⟩
  · by_cases hps : st.prevSymbol ≠ some symbol
    · rw [if_pos hps] at hcalls
      rw [hcalls]
      rfl
    · rw [if_neg hps] at hcalls
      rw [hcalls]
      rfl

/-- Witness for C6 at a one-candle sequence with non-finite fields. -/
theorem reconcile_pushes_full_sequence_witness :
    countSetData (reconcile initialMountedState [candleC] "AAPL").2 = 1 ∧
      (reconcile initialMountedState [candleC] "AAPL").1.hasData = true :=
  ⟨(reconcile_pushes_full_sequence initialMountedState [candleC] "AAPL"
      rfl rfl (List.cons_ne_nil _ _)).2.1,
    (reconcile_pushes_full_sequence initialMountedState [candleC] "AAPL"
      rfl rfl (List.cons_ne_nil _ _)).2.2.2⟩

/-- C7: the boundary set produced by a main-path pass is a function of the
current snapshot alone (full recomputation, no incremental patching from
the previous state). -/
theorem dayBoundaries_fullRecompute (st st2 : HookState)
    (candles : List Candle) (symbol symbol2 : String)
    (hs : st.seriesLive = true) (hc : st.chartLive = true)
    (hs2 : st2.seriesLive = true) (hc2 : st2.chartLive = true)
    (hne : candles ≠ []) :
    (reconcile st candles symbol).1.newDayTimestamps =
        dayBoundaries candles ∧
      (reconcile st candles symbol).1.newDayTimestamps =
        (reconcile st2 candles symbol2).1.newDayTimestamps := by
  rw [reconcile_run st candles symbol hs hc hne,
    reconcile_run st2 candles symbol2 hs2 hc2 hne]
  exact ⟨rfl, rfl⟩

/-- Witness for C7 at two different previous states. -/
theorem dayBoundaries_fullRecompute_witness :
    (reconcile initialMountedState [candleA] "AAPL").1.newDayTimestamps =
        dayBoundaries [candleA] ∧
      (reconcile initialMountedState [candleA] "AAPL").1.newDayTimestamps =
        (reconcile
          { initialMountedState with
              prevSymbol := some "MSFT"
              newDayTimestamps := insert 5 ∅ }
          [candleA] "XYZ").1.newDayTimestamps :=
  dayBoundaries_fullRecompute initialMountedState
    { initialMountedState with
        prevSymbol := some "MSFT"
        newDayTimestamps := insert 5 ∅ }
    [candleA] "AAPL" "XYZ" rfl rfl rfl rfl (List.cons_ne_nil _ _)

/-- C8: the reset command is idempotent on the modelled engine viewport
when the loaded data is unchanged, and a no-op (no calls at all) when no
chart handle is live. -/
theorem resetView_idempotent (st : HookState) (e : EngineModel) :
    applyEngineCalls e (resetViewCalls st ++ resetViewCalls st) =
        applyEngineCalls e (resetViewCalls st) ∧
      (st.chartLive = false → resetViewCalls st = []) := by
  obtain ⟨data, vr, as⟩ := e
  constructor
  · by_cases h : st.chartLive
    · simp [resetViewCalls, h, applyEngineCalls, applyEngineCall]
    · simp [resetViewCalls, h, applyEngineCalls]
  · intro h
    simp [resetViewCalls, h]

/-- Witness for C8: double reset equals single reset on the empty engine,
and a dead handle produces no calls. -/
theorem resetView_idempotent_witness :
    applyEngineCalls emptyEngine
        (resetViewCalls initialMountedState ++
          resetViewCalls initialMountedState) =
      applyEngineCalls emptyEngine (resetViewCalls initialMountedState) ∧
      resetViewCalls { initialMountedState with chartLive := false } = [] :=
  ⟨(resetView_idempotent initialMountedState emptyEngine).1,
    (resetView_idempotent { initialMountedState with chartLive := false }
      emptyEngine).2 rfl⟩

/-- C9: the first main-path pass after mount always performs the automatic
reset, whatever the symbol is, because prevSymbolRef starts at null and a
string never equals null. -/
theorem first_pass_resets (candles : List Candle) (symbol : String)
    (hne : candles ≠ []) :
    countFit (reconcile initialMountedState candles symbol).2 = 1 ∧
      countAutoScale (reconcile initialMountedState candles symbol).2 = 1 ∧
      (reconcile initialMountedState candles symbol).1.prevSymbol =
        some symbol := by
  have hcalls := reconcile_run_calls initialMountedState candles symbol
    rfl rfl hne
  have hps : (initialMountedState.prevSymbol ≠ some symbol) := by
    simp [initialMountedState]
  rw [if_pos hps] at hcalls
  rw [hcalls]
  obtain ⟨_, hprev, _, _, _⟩ := reconcile_run_fields initialMountedState
    candles symbol rfl rfl hne
  exact ⟨countFit_with_reset _, countAutoScale_with_reset _, hprev⟩

/-- Witness for C9. -/
theorem first_pass_resets_witness :
    countFit (reconcile initialMountedState [candleA] "AAPL").2 = 1 ∧
      countAutoScale (reconcile initialMountedState [candleA] "AAPL").2 = 1 ∧
      (reconcile initialMountedState [candleA] "AAPL").1.prevSymbol =
        some "AAPL" :=
  first_pass_resets [candleA] "AAPL" (List.cons_ne_nil _ _)

/-- C10: an early-return pass leaves the boundary set, the recorded symbol
identity (and with them the tick labeling) untouched; a symbol change
delivered with an empty sequence produces no reset on that pass and
exactly one reset on the next non-empty pass. -/
theorem earlyReturn_frame (st : HookState) (candles : List Candle)
    (symbol : String)
    (h : st.seriesLive = false ∨ st.chartLive = false ∨ candles = []) :
    ((reconcile st candles symbol).1.newDayTimestamps =
        st.newDayTimestamps ∧
      (reconcile st candles symbol).1.prevSymbol = st.prevSymbol ∧
      ∀ tzOff t : Int,
        tickMarkFormatter
            (reconcile st candles symbol).1.newDayTimestamps tzOff t =
          tickMarkFormatter st.newDayTimestamps tzOff t) ∧
    (st.seriesLive = true → st.chartLive = true →
      st.prevSymbol ≠ some symbol →
      ∀ c2 : List Candle, c2 ≠ [] →
        (reconcile st [] symbol).2 = [] ∧
          (reconcile st [] symbol).1.prevSymbol = st.prevSymbol ∧
          countFit (reconcile (reconcile st [] symbol).1 c2 symbol).2 = 1 ∧
          countAutoScale
            (reconcile (reconcile st [] symbol).1 c2 symbol).2 = 1) := by
  constructor
  · rw [reconcile_early st candles symbol h]
    exact ⟨rfl, rfl, fun _ _ => rfl⟩
  · intro hs hc hps c2 hne2
    have he : reconcile st [] symbol = ({ st with hasData := false }, []) :=
      reconcile_early st [] symbol (Or.inr (Or.inr rfl))
    have hcalls := reconcile_run_calls (reconcile st [] symbol).1 c2 symbol
      (by rw [he]; exact hs) (by rw [he]; exact hc) hne2
    have hprev : (reconcile st [] symbol).1.prevSymbol = st.prevSymbol := by
      rw [he]
    rw [hprev, if_pos hps] at hcalls
    rw [hcalls]
    exact ⟨by rw [he], hprev, countFit_with_reset _, countAutoScale_with_reset _⟩

/-- Witness for C10: empty pass with a fresh symbol, then a non-empty one. -/
theorem earlyReturn_frame_witness :
    ((reconcile initialMountedState [] "MSFT").1.newDayTimestamps =
        initialMountedState.newDayTimestamps ∧
      (reconcile initialMountedState [] "MSFT").1.prevSymbol =
        initialMountedState.prevSymbol) ∧
      countFit (reconcile (reconcile initialMountedState [] "MSFT").1
        [candleA] "MSFT").2 = 1 := by
  obtain ⟨h1, h2⟩ := earlyReturn_frame initialMountedState [] "MSFT"
    (Or.inr (Or.inr rfl))
  refine ⟨⟨h1.1, h1.2.1⟩, ?_⟩
  exact (h2 rfl rfl (by simp [initialMountedState]) [candleA]
    (List.cons_ne_nil _ _)).2.2.1

/-! ## C4: tick-label shapes -/

theorem monthShort_mem (m : Int) (h1 : 1 ≤ m) (h2 : m ≤ 12) :
    monthShort m ∈ monthNames := by
  interval_cases m <;> decide

theorem colon_not_mem_monthName (mo : String) (h : mo ∈ monthNames) :
    (':' : Char) ∉ mo.data := by
  fin_cases h <;> decide

theorem colon_not_mem_day (d : Int) (h1 : 1 ≤ d) (h2 : d ≤ 31) :
    (':' : Char) ∉ (toString d).data := by
  interval_cases d <;> decide

/-- No month/day label is also a time-of-day label: the latter contains a
colon, the former cannot. -/
theorem monthDay_time_disjoint (s : String) :
    IsMonthDayLabel s → IsTimeOfDayLabel s → False := by
  rintro ⟨mo, d, hmo, hd0, hd1, rfl⟩ ⟨h, mi, ap, _, _, _, _, _, heq⟩
  have hR : (':' : Char) ∈ (toString h ++ ":" ++
      padStart 2 '0' (toString mi) ++ " " ++ ap).data := by
    rw [String.data_append, String.data_append, String.data_append,
      String.data_append]
    rw [show (":" : String).data = [':'] from rfl]
    simp [List.mem_append]
  rw [← heq] at hR
  rw [String.data_append, String.data_append] at hR
  rw [show (" " : String).data = [' '] from rfl] at hR
  have h1 := colon_not_mem_monthName mo hmo
  have h2 := colon_not_mem_day d hd0 hd1
  rcases List.mem_append.mp hR with hL | hL
  · rcases List.mem_append.mp hL with hL2 | hL2
    · exact h1 hL2
    · exact absurd hL2 (by decide)
  · exact h2 hL

/-- C4: on a day-boundary timestamp the tick label is an abbreviated month
name plus day-of-month and never a time-of-day string; on any other
timestamp it is a 12-hour H:MM AM/PM label with zero-padded minutes, never
a month/day string, and local hour 0 as well as local hour 12 display the
hour as 12. -/
theorem tickLabel_mode (nds : Finset Int) (tzOff t : Int) :
    (t ∈ nds →
      IsMonthDayLabel (tickMarkFormatter nds tzOff t) ∧
        ¬ IsTimeOfDayLabel (tickMarkFormatter nds tzOff t)) ∧
    (t ∉ nds →
      IsTimeOfDayLabel (tickMarkFormatter nds tzOff t) ∧
        ¬ IsMonthDayLabel (tickMarkFormatter nds tzOff t) ∧
        (localHours tzOff t = 0 →
          tickMarkFormatter nds tzOff t =
            toString (12 : Int) ++ ":" ++
              padStart 2 '0' (toString (localMinutes tzOff t)) ++
              " " ++ "AM") ∧
        (localHours tzOff t = 12 →
          tickMarkFormatter nds tzOff t =
            toString (12 : Int) ++ ":" ++
              padStart 2 '0' (toString (localMinutes tzOff t)) ++
              " " ++ "PM")) := by
  have hrange := civilFromDays_ranges ((t + tzOff) / 86400)
  have hmin : 0 ≤ localMinutes tzOff t ∧ localMinutes tzOff t < 60 := by
    unfold localMinutes
    omega
  have hhrs : 0 ≤ localHours tzOff t ∧ localHours tzOff t < 24 := by
    unfold localHours
    omega
  constructor
  · intro hmem
    have hout : tickMarkFormatter nds tzOff t =
        monthShort (localDate tzOff t).2.1 ++ " " ++
          toString (localDate tzOff t).2.2 := by
      simp [tickMarkFormatter, hmem]
    have hM : IsMonthDayLabel (tickMarkFormatter nds tzOff t) :=
      ⟨monthShort (localDate tzOff t).2.1, (localDate tzOff t).2.2,
        monthShort_mem _ hrange.1 hrange.2.1, hrange.2.2.1,
        hrange.2.2.2, hout⟩
    exact ⟨hM, fun hT => monthDay_time_disjoint _ hM hT⟩
  · intro hmem
    have hout : tickMarkFormatter nds tzOff t =
        toString (if localHours tzOff t % 12 = 0 then 12
            else localHours tzOff t % 12) ++ ":" ++
          padStart 2 '0' (toString (localMinutes tzOff t)) ++ " " ++
          (if 12 ≤ localHours tzOff t then "PM" else "AM") := by
      simp [tickMarkFormatter, hmem]
    have hT : IsTimeOfDayLabel (tickMarkFormatter nds tzOff t) := by
      refine ⟨if localHours tzOff t % 12 = 0 then 12
          else localHours tzOff t % 12,
        localMinutes tzOff t,
        if 12 ≤ localHours tzOff t then "PM" else "AM",
        ?_, ?_, hmin.1, hmin.2, ?_, hout⟩
      · split_ifs <;> omega
      · split_ifs <;> omega
      · split_ifs
        · exact Or.inr rfl
        · exact Or.inl rfl
    refine ⟨hT, fun hM => monthDay_time_disjoint _ hM hT, ?_, ?_⟩
    · intro h0
      rw [hout, h0]
      norm_num
    · intro h12
      rw [hout, h12]
      norm_num

/-- Witness for C4: a boundary and a non-boundary timestamp. -/
theorem tickLabel_mode_witness :
    IsMonthDayLabel
        (tickMarkFormatter (insert (1700086400 : Int) ∅) 0 1700086400) ∧
      IsTimeOfDayLabel
        (tickMarkFormatter (insert (1700086400 : Int) ∅) 0 1700003600) :=
  ⟨((tickLabel_mode (insert (1700086400 : Int) ∅) 0 1700086400).1
      (by decide)).1,
    ((tickLabel_mode (insert (1700086400 : Int) ∅) 0 1700003600).2
      (by decide)).1⟩

end Screener
